import Mathlib

/-!
Shallow embedding of the cafeteria backend (src/server.js): the food
catalog, the per-user cart, and the order placement and listing
handlers.  JS numbers (prices, quantities, money amounts) are embedded
as exact rationals; JS objects holding the cart are embedded as
association lists in key-insertion order; the document store is a
record of lists.  Fallible handlers return an explicit result value
paired with the post-state.
-/

namespace Cafeteria

/-- Food document of the catalog collection (foodSchema in src/server.js). -/
structure FoodItem where
  fid : String
  name : String
  description : String
  price : ℚ
  image : String
  category : String
  isAvailable : Bool
deriving DecidableEq

/-- The food collection. -/
abbrev Catalog := List FoodItem

/-- Food.findById. -/
def findFood (cat : Catalog) (i : String) : Option FoodItem :=
  cat.find? (fun f => f.fid == i)

/-- The cartData object of a user document: a JS object mapping item id
to quantity, kept in key-insertion order. -/
abbrev CartData := List (String × ℚ)

/-- Reading cartData\x5bitemId\x5d with 0 for an absent key (JS reads of an
absent property are undefined, which the arithmetic below treats as 0
via its truthiness guards). -/
def cartGetD (c : CartData) (i : String) : ℚ :=
  match c.find? (fun p => p.1 == i) with
  | some p => p.2
  | none => 0

/-- Whether the key is present in the object. -/
def hasKey (c : CartData) (i : String) : Bool :=
  c.any (fun p => p.1 == i)

/-- JS assignment cartData\x5bitemId\x5d = v: replaces the value of an
existing key in place, or appends a fresh key at the end. -/
def setKey (c : CartData) (i : String) (v : ℚ) : CartData :=
  if hasKey c i then c.map (fun p => if p.1 == i then (i, v) else p)
  else c ++ [(i, v)]

/-- JS delete cartData\x5bitemId\x5d. -/
def eraseKey (c : CartData) (i : String) : CartData :=
  c.filter (fun p => !(p.1 == i))

/-- Cart update of the POST /api/cart/add handler.  The source reads:
if the present value is truthy, add the quantity to it, else assign the
quantity.  A present value v is truthy iff v is nonzero, so in both
branches the stored value becomes (old value or 0) + q, and setKey
keeps the key position of an existing key. -/
def cartAdd (c : CartData) (i : String) (q : ℚ) : CartData :=
  setKey c i (cartGetD c i + q)

/-- Cart update of the POST /api/cart/remove handler: if the present
value is truthy, subtract the quantity; when the result drops to 0 or
below, delete the key entirely. -/
def cartRemove (c : CartData) (i : String) (q : ℚ) : CartData :=
  if cartGetD c i ≠ 0 then
    if cartGetD c i - q ≤ 0 then eraseKey c i
    else setKey c i (cartGetD c i - q)
  else c

/-- A user document, reduced to the fields the cart and order logic
reads: the id and the cartData object. -/
structure UserRec where
  uid : String
  cartData : CartData
deriving DecidableEq

abbrev Users := List UserRec

/-- User.findById. -/
def findUser (us : Users) (uid : String) : Option UserRec :=
  us.find? (fun u => u.uid == uid)

/-- User.findByIdAndUpdate(userId, \x7b cartData \x7d). -/
def updateUserCart (us : Users) (uid : String) (c : CartData) : Users :=
  us.map (fun u => if u.uid == uid then { u with cartData := c } else u)

/-- Response of the cart add and remove handlers: 404 when the user
document does not resolve, otherwise the item id and the quantity now
stored (0 when the entry was deleted). -/
inductive CartResult where
  | notFound
  | ok (itemId : String) (quantity : ℚ)
deriving DecidableEq

/-- POST /api/cart/add handler body (after the auth middleware resolved
the user id): fetch the user, update the cart, persist, and answer with
the new stored quantity of the item. -/
def cartAddHandler (us : Users) (uid itemId : String) (q : ℚ) :
    CartResult × Users :=
  match findUser us uid with
  | none => (.notFound, us)
  | some u =>
    let c := cartAdd u.cartData itemId q
    (.ok itemId (cartGetD c itemId), updateUserCart us uid c)

/-- POST /api/cart/remove handler body: fetch the user, update the
cart, persist, and answer with cartData\x5bitemId\x5d or 0. -/
def cartRemoveHandler (us : Users) (uid itemId : String) (q : ℚ) :
    CartResult × Users :=
  match findUser us uid with
  | none => (.notFound, us)
  | some u =>
    let c := cartRemove u.cartData itemId q
    (.ok itemId (cartGetD c itemId), updateUserCart us uid c)

/-- Delivery address of the place-order request body.  A JS field that
is absent, null or the empty string is falsy in the validation below;
the embedding models all of those as the empty string. -/
structure Address where
  firstName : String
  lastName : String
  email : String
  street : String
  city : String
  state : String
  zipcode : String
  country : String
  phone : String
deriving DecidableEq

/-- Truthiness test !address?.field of the handler: true when the
address object itself is missing or the field is empty. -/
def fieldMissing (a : Option Address) (f : Address → String) : Bool :=
  match a with
  | none => true
  | some x => f x == ""

/-- The missingFields object of the 400 response: one boolean per
required address field. -/
structure MissingFields where
  firstName : Bool
  lastName : Bool
  email : Bool
  street : Bool
  city : Bool
  state : Bool
  zipcode : Bool
  country : Bool
  phone : Bool
deriving DecidableEq

def missingFieldsOf (a : Option Address) : MissingFields where
  firstName := fieldMissing a (·.firstName)
  lastName := fieldMissing a (·.lastName)
  email := fieldMissing a (·.email)
  street := fieldMissing a (·.street)
  city := fieldMissing a (·.city)
  state := fieldMissing a (·.state)
  zipcode := fieldMissing a (·.zipcode)
  country := fieldMissing a (·.country)
  phone := fieldMissing a (·.phone)

/-- The guard of the address validation: !address or any required
field falsy. -/
def addressIncomplete (a : Option Address) : Bool :=
  a.isNone || fieldMissing a (·.firstName) || fieldMissing a (·.lastName) ||
    fieldMissing a (·.email) || fieldMissing a (·.street) ||
    fieldMissing a (·.city) || fieldMissing a (·.state) ||
    fieldMissing a (·.zipcode) || fieldMissing a (·.country) ||
    fieldMissing a (·.phone)

/-- Line-item snapshot stored inside an order (items array of
orderSchema). -/
structure OrderLineItem where
  foodId : String
  name : String
  price : ℚ
  quantity : ℚ
  image : String
deriving DecidableEq

/-- Order document (orderSchema).  The amount field is the subtotal. -/
structure Order where
  userId : String
  orderNumber : String
  items : List OrderLineItem
  amount : ℚ
  deliveryFee : ℚ
  totalAmount : ℚ
  address : Address
  status : String
  paymentStatus : String
  paymentId : Option String
  createdAt : Nat
deriving DecidableEq

/-- Decimal digit rendering, structurally recursive on a fuel bound so
that it reduces inside the kernel.  The fuel never runs out when it
exceeds the number being rendered. -/
def natDigitsF : Nat → Nat → List Char
  | 0, _ => []
  | fuel + 1, n =>
    if n < 10 then [Nat.digitChar n]
    else natDigitsF fuel (n / 10) ++ [Nat.digitChar (n % 10)]

/-- Decimal digit characters of a natural number, most significant
first: the JS toString of the number. -/
def natDigits (n : Nat) : List Char := natDigitsF (n + 1) n

/-- JS padStart(4, 0-character) over the digit list. -/
def padStart4 (l : List Char) : List Char :=
  List.replicate (4 - l.length) '0' ++ l

/-- Order number generated by the pre-save hook of orderSchema for a
new order: ORD, the millisecond timestamp, and the zero-padded
successor of the current order count, joined by dashes. -/
def genOrderNumber (now count : Nat) : String :=
  String.mk (['O', 'R', 'D', '-'] ++ natDigits now ++
    '-' :: padStart4 (natDigits (count + 1)))

/-- Request body of POST /api/order/place.  The handler destructures
only address and paymentId; paymentStatus is carried here to show that
a supplied value is never read. -/
structure PlaceRequest where
  address : Option Address
  paymentId : Option String
  paymentStatus : Option String
deriving DecidableEq

/-- Error found by the item-resolution loop. -/
inductive ItemErr where
  | notFound (itemId : String)
  | unavailable (name : String)
deriving DecidableEq

/-- The stored paymentId: the request value, with a falsy value (absent
or empty) stored as null. -/
def normPaymentId : Option String → Option String
  | some p => if p == "" then none else some p
  | none => none

/-- Outcome of the place-order handler. -/
inductive PlaceResult where
  | invalidAddress (missingFields : MissingFields)
  | userNotFound
  | cartEmpty
  | foodNotFound (itemId : String)
  | foodUnavailable (name : String)
  | saveFailed
  | ok (order : Order)
deriving DecidableEq

def isOk : PlaceResult → Bool
  | .ok _ => true
  | _ => false

/-- The item-resolution loop of the place-order handler: resolves each
cart line against the catalog, builds the snapshot line items and the
subtotal, and aborts at the first missing or unavailable item. -/
def buildOrderItems (cat : Catalog) :
    List (String × ℚ) → Except ItemErr (List OrderLineItem × ℚ)
  | [] => .ok ([], 0)
  | (i, q) :: rest =>
    match findFood cat i with
    | none => .error (.notFound i)
    | some f =>
      if f.isAvailable then
        match buildOrderItems cat rest with
        | .error e => .error e
        | .ok (items, sub) =>
          .ok ({ foodId := f.fid, name := f.name, price := f.price,
                 quantity := q, image := f.image } :: items,
               f.price * q + sub)
      else .error (.unavailable f.name)

/-- order.save(): the unique index on orderNumber rejects a duplicate,
otherwise the document is appended to the collection. -/
def insertOrder (orders : List Order) (o : Order) : Option (List Order) :=
  if orders.any (fun p => p.orderNumber == o.orderNumber) then none
  else some (orders ++ [o])

/-- The persistent store the handlers touch. -/
structure State where
  users : Users
  catalog : Catalog
  orders : List Order
deriving DecidableEq

/-- POST /api/order/place handler body.  now is the millisecond clock
reading; saveOk models whether the storage layer accepts the single
order insert (a transient failure surfaces as a 500 and nothing else
is mutated).  The cart is cleared only after a successful insert. -/
def placeOrder (now : Nat) (saveOk : Bool) (s : State) (uid : String)
    (req : PlaceRequest) : PlaceResult × State :=
  if addressIncomplete req.address then
    (.invalidAddress (missingFieldsOf req.address), s)
  else
    match req.address with
    | none => (.invalidAddress (missingFieldsOf req.address), s)
    | some a =>
      match findUser s.users uid with
      | none => (.userNotFound, s)
      | some u =>
        let cartItems := u.cartData.filter (fun p => decide (0 < p.2))
        if cartItems.isEmpty then (.cartEmpty, s)
        else
          match buildOrderItems s.catalog cartItems with
          | .error (.notFound i) => (.foodNotFound i, s)
          | .error (.unavailable n) => (.foodUnavailable n, s)
          | .ok (items, subtotal) =>
            let o : Order :=
              { userId := uid
                orderNumber := genOrderNumber now s.orders.length
                items := items
                amount := subtotal
                deliveryFee := 2
                totalAmount := subtotal + 2
                address := a
                status := "Food Processing"
                paymentStatus := "Pending"
                paymentId := normPaymentId req.paymentId
                createdAt := now }
            if saveOk then
              match insertOrder s.orders o with
              | none => (.saveFailed, s)
              | some orders2 =>
                (.ok o, { s with orders := orders2,
                                 users := updateUserCart s.users uid [] })
            else (.saveFailed, s)

/-- Pagination block of the POST /api/order/userorders response. -/
structure Pagination where
  currentPage : Nat
  totalPages : Nat
  totalOrders : Nat
  hasNextPage : Bool
  hasPrevPage : Bool
deriving DecidableEq

/-- JS Math.ceil(a / b) for natural operands. -/
def jsCeilDiv (a b : Nat) : Nat := (a + b - 1) / b

/-- The sort key of the listing: createdAt descending. -/
def byCreatedDesc (a b : Order) : Prop := b.createdAt ≤ a.createdAt

instance : DecidableRel byCreatedDesc :=
  fun a b => Nat.decLe b.createdAt a.createdAt

instance : IsTotal Order byCreatedDesc :=
  ⟨fun a b => Nat.le_total b.createdAt a.createdAt⟩

instance : IsTrans Order byCreatedDesc :=
  ⟨fun _ _ _ hab hbc => le_trans hbc hab⟩

/-- POST /api/order/userorders handler body: the orders of the user,
newest first, paged by skip and limit, with the pagination metadata. -/
def userOrdersHandler (s : State) (uid : String) (page limit : Nat) :
    List Order × Pagination :=
  let mine := s.orders.filter (fun o => o.userId == uid)
  let sorted := List.insertionSort byCreatedDesc mine
  let skip := (page - 1) * limit
  let totalOrders := mine.length
  let totalPages := jsCeilDiv totalOrders limit
  ((sorted.drop skip).take limit,
   { currentPage := page
     totalPages := totalPages
     totalOrders := totalOrders
     hasNextPage := decide (page < totalPages)
     hasPrevPage := decide (1 < page) })

/-- One cart mutation through the HTTP surface. -/
inductive CartOp where
  | add (itemId : String) (q : ℚ)
  | remove (itemId : String) (q : ℚ)

def CartOp.qty : CartOp → ℚ
  | .add _ q => q
  | .remove _ q => q

def applyOp (c : CartData) : CartOp → CartData
  | .add i q => cartAdd c i q
  | .remove i q => cartRemove c i q

def applyOps (c : CartData) (ops : List CartOp) : CartData :=
  ops.foldl applyOp c

/-- Reference definition taken from the wording of the spec: the
running signed-delta sum of one item over a call sequence, floored at
removal-to-deletion (a removal that would reach 0 or below resets the
quantity to 0, the absent state). -/
def specStep (i : String) (acc : ℚ) : CartOp → ℚ
  | .add j q => if j = i then acc + q else acc
  | .remove j q => if j = i then (if acc - q ≤ 0 then 0 else acc - q) else acc

def specSignedSum (i : String) (ops : List CartOp) : ℚ :=
  ops.foldl (specStep i) 0

/-- Invariant: every stored cart entry has a positive quantity. -/
abbrev allPos (c : CartData) : Prop := ∀ p ∈ c, 0 < p.2

/-! Lemmas about the cart object operations. -/

theorem find?_eq_none_of_hasKey_false {c : CartData} {i : String}
    (h : hasKey c i = false) : c.find? (fun p => p.1 == i) = none := by
  rw [List.find?_eq_none]
  intro p hp
  simp only [hasKey, List.any_eq_false] at h
  exact h p hp

theorem find?_map_set_self {i : String} {v : ℚ} (c : CartData)
    (h : hasKey c i = true) :
    (c.map (fun p => if p.1 == i then (i, v) else p)).find?
      (fun p => p.1 == i) = some (i, v) := by
  induction c with
  | nil => simp [hasKey] at h
  | cons hd tl ih =>
    simp only [List.map_cons]
    by_cases hi : hd.1 = i
    · rw [if_pos (by simpa using hi), List.find?_cons_of_pos _ (by simp)]
    · rw [if_neg (by simpa using hi),
        List.find?_cons_of_neg _ (by simpa using hi)]
      refine ih ?_
      simp only [hasKey, List.any_cons, Bool.or_eq_true] at h
      rcases h with h | h
      · exact absurd (by simpa using h) hi
      · exact h

theorem find?_map_set_other {j i : String} {v : ℚ} (hne : j ≠ i)
    (c : CartData) :
    (c.map (fun p => if p.1 == j then (j, v) else p)).find?
      (fun p => p.1 == i) = c.find? (fun p => p.1 == i) := by
  induction c with
  | nil => rfl
  | cons hd tl ih =>
    simp only [List.map_cons]
    by_cases hj : hd.1 = j
    · rw [if_pos (by simpa using hj),
        List.find?_cons_of_neg _ (by simpa using hne),
        List.find?_cons_of_neg _ (by simp [hj, hne]), ih]
    · rw [if_neg (by simpa using hj)]
      by_cases hi : hd.1 = i
      · rw [List.find?_cons_of_pos _ (by simpa using hi),
          List.find?_cons_of_pos _ (by simpa using hi)]
      · rw [List.find?_cons_of_neg _ (by simpa using hi),
          List.find?_cons_of_neg _ (by simpa using hi), ih]

theorem find?_setKey_self (c : CartData) (i : String) (v : ℚ) :
    (setKey c i v).find? (fun p => p.1 == i) = some (i, v) := by
  unfold setKey
  split
  case isTrue h => exact find?_map_set_self c h
  case isFalse h =>
    rw [List.find?_append, find?_eq_none_of_hasKey_false (by simpa using h)]
    simp

theorem find?_setKey_other {j i : String} (hne : j ≠ i) (c : CartData) (v : ℚ) :
    (setKey c j v).find? (fun p => p.1 == i) = c.find? (fun p => p.1 == i) := by
  unfold setKey
  split
  · exact find?_map_set_other hne c
  · rw [List.find?_append]
    have h1 : List.find? (fun p => p.1 == i) [(j, v)] = none := by
      simp [hne]
    rw [h1]
    cases c.find? (fun p => p.1 == i) <;> simp

theorem find?_eraseKey_self (c : CartData) (i : String) :
    (eraseKey c i).find? (fun p => p.1 == i) = none := by
  rw [List.find?_eq_none]
  intro p hp
  unfold eraseKey at hp
  have := List.of_mem_filter hp
  simpa using this

theorem find?_eraseKey_other {j i : String} (hne : j ≠ i) (c : CartData) :
    (eraseKey c j).find? (fun p => p.1 == i) = c.find? (fun p => p.1 == i) := by
  unfold eraseKey
  induction c with
  | nil => rfl
  | cons hd tl ih =>
    simp only [List.filter_cons]
    by_cases hj : hd.1 = j
    · have hi : ¬hd.1 = i := fun h => hne (hj ▸ h ▸ rfl)
      rw [if_neg (by simpa using hj), ih,
        List.find?_cons_of_neg _ (by simpa using hi)]
    · rw [if_pos (by simpa using hj)]
      by_cases hi : hd.1 = i
      · rw [List.find?_cons_of_pos _ (by simpa using hi),
          List.find?_cons_of_pos _ (by simpa using hi)]
      · rw [List.find?_cons_of_neg _ (by simpa using hi),
          List.find?_cons_of_neg _ (by simpa using hi), ih]

theorem cartGetD_setKey_self (c : CartData) (i : String) (v : ℚ) :
    cartGetD (setKey c i v) i = v := by
  simp [cartGetD, find?_setKey_self]

theorem cartGetD_setKey_other {j i : String} (hne : j ≠ i) (c : CartData) (v : ℚ) :
    cartGetD (setKey c j v) i = cartGetD c i := by
  simp [cartGetD, find?_setKey_other hne]

theorem cartGetD_eraseKey_self (c : CartData) (i : String) :
    cartGetD (eraseKey c i) i = 0 := by
  simp [cartGetD, find?_eraseKey_self]

theorem cartGetD_eraseKey_other {j i : String} (hne : j ≠ i) (c : CartData) :
    cartGetD (eraseKey c j) i = cartGetD c i := by
  simp [cartGetD, find?_eraseKey_other hne]

theorem allPos_setKey {c : CartData} {v : ℚ} (hc : allPos c) (hv : 0 < v)
    (i : String) : allPos (setKey c i v) := by
  unfold setKey
  split
  · intro p hp
    rcases List.mem_map.mp hp with ⟨q, hq, hqp⟩
    by_cases h : q.1 = i
    · simp only [h, beq_self_eq_true, if_pos] at hqp
      simpa [← hqp] using hv
    · simp only [beq_iff_eq, h, if_neg, not_false_iff] at hqp
      exact hqp ▸ hc q hq
  · intro p hp
    rcases List.mem_append.mp hp with h | h
    · exact hc p h
    · simp only [List.mem_singleton] at h
      simpa [h] using hv

theorem allPos_eraseKey {c : CartData} (hc : allPos c) (i : String) :
    allPos (eraseKey c i) := by
  intro p hp
  exact hc p (List.mem_of_mem_filter hp)

theorem cartGetD_nonneg {c : CartData} (hc : allPos c) (i : String) :
    0 ≤ cartGetD c i := by
  unfold cartGetD
  cases h : c.find? (fun p => p.1 == i) with
  | none => exact le_refl 0
  | some p => exact le_of_lt (hc p (List.mem_of_find?_eq_some h))

theorem hasKey_iff_pos {c : CartData} (hc : allPos c) (i : String) :
    hasKey c i = true ↔ 0 < cartGetD c i := by
  constructor
  · intro h
    simp only [hasKey, List.any_eq_true] at h
    have : (c.find? (fun p => p.1 == i)).isSome = true :=
      List.find?_isSome.mpr h
    cases hf : c.find? (fun p => p.1 == i) with
    | none => rw [hf] at this; simp at this
    | some p => simpa [cartGetD, hf] using hc p (List.mem_of_find?_eq_some hf)
  · intro h
    by_contra hk
    have : c.find? (fun p => p.1 == i) = none :=
      find?_eq_none_of_hasKey_false (by simpa using hk)
    simp [cartGetD, this] at h

theorem cartGetD_cartAdd_self (c : CartData) (i : String) (q : ℚ) :
    cartGetD (cartAdd c i q) i = cartGetD c i + q :=
  cartGetD_setKey_self ..

theorem cartGetD_cartAdd_other {j i : String} (hne : j ≠ i) (c : CartData)
    (q : ℚ) : cartGetD (cartAdd c j q) i = cartGetD c i :=
  cartGetD_setKey_other hne ..

theorem allPos_cartAdd {c : CartData} {q : ℚ} (hc : allPos c) (hq : 0 < q)
    (i : String) : allPos (cartAdd c i q) :=
  allPos_setKey hc (by have := cartGetD_nonneg hc i; linarith) i

theorem cartGetD_cartRemove_self {q : ℚ} (hq : 0 < q) (c : CartData)
    (i : String) :
    cartGetD (cartRemove c i q) i =
      if cartGetD c i - q ≤ 0 then 0 else cartGetD c i - q := by
  unfold cartRemove
  by_cases h0 : cartGetD c i = 0
  · rw [if_neg (not_not_intro h0), h0, if_pos (by linarith)]
  · simp only [ne_eq, h0, not_false_iff, if_pos]
    by_cases hle : cartGetD c i - q ≤ 0
    · simp [hle, cartGetD_eraseKey_self]
    · simp [hle, cartGetD_setKey_self]

theorem cartGetD_cartRemove_other {j i : String} (hne : j ≠ i) (c : CartData)
    (q : ℚ) : cartGetD (cartRemove c j q) i = cartGetD c i := by
  unfold cartRemove
  by_cases h0 : cartGetD c j = 0
  · simp [h0]
  · by_cases hle : cartGetD c j - q ≤ 0
    · simp [h0, hle, cartGetD_eraseKey_other hne]
    · simp [h0, hle, cartGetD_setKey_other hne]

theorem allPos_cartRemove {c : CartData} (hc : allPos c) (i : String)
    (q : ℚ) : allPos (cartRemove c i q) := by
  unfold cartRemove
  by_cases h0 : cartGetD c i = 0
  · simpa [h0] using hc
  · by_cases hle : cartGetD c i - q ≤ 0
    · simp only [ne_eq, h0, not_false_iff, if_pos, hle, if_true]
      exact allPos_eraseKey hc i
    · simp only [ne_eq, h0, not_false_iff, if_pos, hle, if_false]
      exact allPos_setKey hc (by linarith [not_le.mp hle]) i

/-! Refinement of one cart mutation against the spec-side step. -/

theorem applyOp_spec {c : CartData} (hc : allPos c) {op : CartOp}
    (hq : 0 < op.qty) (i : String) :
    cartGetD (applyOp c op) i = specStep i (cartGetD c i) op ∧
      allPos (applyOp c op) := by
  cases op with
  | add j q =>
    refine ⟨?_, allPos_cartAdd hc (by simpa [CartOp.qty] using hq) j⟩
    by_cases h : j = i
    · subst h
      simp [applyOp, specStep, cartGetD_cartAdd_self]
    · simp [applyOp, specStep, h, cartGetD_cartAdd_other h]
  | remove j q =>
    refine ⟨?_, allPos_cartRemove hc j q⟩
    by_cases h : j = i
    · subst h
      simpa [applyOp, specStep] using
        cartGetD_cartRemove_self (by simpa [CartOp.qty] using hq) c j
    · simp [applyOp, specStep, h, cartGetD_cartRemove_other h]

theorem applyOps_spec (i : String) :
    ∀ (ops : List CartOp) (c : CartData), allPos c →
      (∀ op ∈ ops, 0 < op.qty) →
      cartGetD (applyOps c ops) i = ops.foldl (specStep i) (cartGetD c i) ∧
        allPos (applyOps c ops) := by
  intro ops
  induction ops with
  | nil => exact fun c hc _ => ⟨rfl, hc⟩
  | cons op rest ih =>
    intro c hc hq
    have h1 := applyOp_spec hc (hq op (by simp)) i
    have h2 := ih (applyOp c op) h1.2 (fun o ho => hq o (by simp [ho]))
    refine ⟨?_, by simpa [applyOps] using h2.2⟩
    simpa [applyOps, List.foldl_cons, h1.1] using h2.1

/-! Lemmas about the user store. -/

theorem findUser_updateUserCart_self {us : Users} {uid : String} {u : UserRec}
    (h : findUser us uid = some u) (c : CartData) :
    findUser (updateUserCart us uid c) uid = some { u with cartData := c } := by
  unfold findUser updateUserCart
  unfold findUser at h
  induction us with
  | nil => simp at h
  | cons hd tl ih =>
    simp only [List.map_cons]
    by_cases hh : hd.uid = uid
    · rw [List.find?_cons_of_pos _ (by simpa using hh)] at h
      injection h with h
      subst h
      rw [if_pos (by simpa using hh), List.find?_cons_of_pos _ (by simpa using hh)]
    · rw [List.find?_cons_of_neg _ (by simpa using hh)] at h
      rw [if_neg (by simpa using hh), List.find?_cons_of_neg _ (by simpa using hh)]
      exact ih h

/-! Decimal-digit lemmas for the order number. -/

theorem digitChar_toNat : ∀ d : Nat, d < 10 → (Nat.digitChar d).toNat = 48 + d := by
  decide

theorem digitChar_range : ∀ d : Nat, d < 10 →
    48 ≤ (Nat.digitChar d).toNat ∧ (Nat.digitChar d).toNat ≤ 57 := by
  decide

/-- Value of a decimal digit string, the inverse of natDigits. -/
def parseDigits (l : List Char) : Nat :=
  l.foldl (fun a c => 10 * a + (c.toNat - 48)) 0

theorem parseDigits_append_one (xs : List Char) (c : Char) :
    parseDigits (xs ++ [c]) = 10 * parseDigits xs + (c.toNat - 48) := by
  unfold parseDigits
  rw [List.foldl_append]
  rfl

theorem parseDigits_natDigitsF :
    ∀ (fuel n : Nat), n < fuel → parseDigits (natDigitsF fuel n) = n := by
  intro fuel
  induction fuel with
  | zero => intro n h; exact absurd h (Nat.not_lt_zero n)
  | succ fuel ih =>
    intro n h
    simp only [natDigitsF]
    split
    case isTrue h10 =>
      unfold parseDigits
      simp only [List.foldl_cons, List.foldl_nil, digitChar_toNat n h10]
      omega
    case isFalse h10 =>
      rw [parseDigits_append_one, ih (n / 10) (by omega),
        digitChar_toNat (n % 10) (by omega)]
      omega

theorem parseDigits_natDigits (n : Nat) : parseDigits (natDigits n) = n :=
  parseDigits_natDigitsF (n + 1) n (by omega)

theorem natDigitsF_range :
    ∀ (fuel n : Nat), n < fuel → ∀ c ∈ natDigitsF fuel n,
      48 ≤ c.toNat ∧ c.toNat ≤ 57 := by
  intro fuel
  induction fuel with
  | zero => intro n h; exact absurd h (Nat.not_lt_zero n)
  | succ fuel ih =>
    intro n h c hc
    simp only [natDigitsF] at hc
    split at hc
    case isTrue h10 =>
      simp only [List.mem_singleton] at hc
      subst hc
      exact digitChar_range n h10
    case isFalse h10 =>
      rcases List.mem_append.mp hc with h1 | h1
      · exact ih (n / 10) (by omega) c h1
      · simp only [List.mem_singleton] at h1
        subst h1
        exact digitChar_range (n % 10) (by omega)

theorem natDigits_range {n : Nat} :
    ∀ c ∈ natDigits n, 48 ≤ c.toNat ∧ c.toNat ≤ 57 :=
  natDigitsF_range (n + 1) n (by omega)

theorem dash_not_mem_natDigits {n : Nat} : '-' ∉ natDigits n := by
  intro h
  have h1 := natDigits_range '-' h
  have h2 : ('-').toNat = 45 := rfl
  omega

theorem foldl_replicate_zero (k : Nat) :
    List.foldl (fun a c => 10 * a + (c.toNat - 48)) 0 (List.replicate k '0') = 0 := by
  induction k with
  | zero => rfl
  | succ k ih =>
    rw [List.replicate_succ, List.foldl_cons]
    show List.foldl (fun a c => 10 * a + (c.toNat - 48)) 0 (List.replicate k '0') = 0
    exact ih

theorem parseDigits_padStart4 (l : List Char) :
    parseDigits (padStart4 l) = parseDigits l := by
  unfold padStart4 parseDigits
  rw [List.foldl_append, foldl_replicate_zero]

theorem padStart4_length (l : List Char) :
    (padStart4 l).length = max 4 l.length := by
  simp only [padStart4, List.length_append, List.length_replicate]
  omega

theorem append_dash_inj : ∀ (xs ys u v : List Char), '-' ∉ xs → '-' ∉ ys →
    xs ++ '-' :: u = ys ++ '-' :: v → xs = ys ∧ u = v := by
  intro xs
  induction xs with
  | nil =>
    intro ys u v _ hy h
    cases ys with
    | nil => simpa using h
    | cons y ys2 =>
      simp only [List.nil_append, List.cons_append, List.cons.injEq] at h
      exact absurd (by rw [h.1]; exact List.mem_cons_self _ _) hy
  | cons x xs2 ih =>
    intro ys u v hx hy h
    cases ys with
    | nil =>
      simp only [List.cons_append, List.nil_append, List.cons.injEq] at h
      exact absurd (by rw [← h.1]; exact List.mem_cons_self _ _) hx
    | cons y ys2 =>
      simp only [List.cons_append, List.cons.injEq] at h
      have hx2 : '-' ∉ xs2 := fun hm => hx (List.mem_cons_of_mem _ hm)
      have hy2 : '-' ∉ ys2 := fun hm => hy (List.mem_cons_of_mem _ hm)
      obtain ⟨e1, e2⟩ := ih ys2 u v hx2 hy2 h.2
      exact ⟨by rw [h.1, e1], e2⟩

theorem genOrderNumber_inj {t1 t2 c1 c2 : Nat}
    (h : genOrderNumber t1 c1 = genOrderNumber t2 c2) : t1 = t2 ∧ c1 = c2 := by
  unfold genOrderNumber at h
  have hd : ['O', 'R', 'D', '-'] ++ (natDigits t1 ++ '-' :: padStart4 (natDigits (c1 + 1)))
      = ['O', 'R', 'D', '-'] ++ (natDigits t2 ++ '-' :: padStart4 (natDigits (c2 + 1))) := by
    have := congrArg String.data h
    simpa [List.append_assoc] using this
  have hd2 := List.append_cancel_left hd
  obtain ⟨e1, e2⟩ := append_dash_inj _ _ _ _ dash_not_mem_natDigits
    dash_not_mem_natDigits hd2
  refine ⟨?_, ?_⟩
  · have h3 := congrArg parseDigits e1
    rwa [parseDigits_natDigits, parseDigits_natDigits] at h3
  · have h3 := congrArg parseDigits e2
    rw [parseDigits_padStart4, parseDigits_padStart4, parseDigits_natDigits,
      parseDigits_natDigits] at h3
    omega

/-! Lemmas about the item-resolution loop. -/

theorem buildOrderItems_subtotal {cat : Catalog} :
    ∀ {l : List (String × ℚ)} {items : List OrderLineItem} {sub : ℚ},
      buildOrderItems cat l = .ok (items, sub) →
      sub = (items.map (fun it => it.price * it.quantity)).sum := by
  intro l
  induction l with
  | nil =>
    intro items sub h
    simp only [buildOrderItems, Except.ok.injEq, Prod.mk.injEq] at h
    simp [← h.1, ← h.2]
  | cons hd tl ih =>
    obtain ⟨i, q⟩ := hd
    intro items sub h
    cases hf : findFood cat i with
    | none => simp [buildOrderItems, hf] at h
    | some f =>
      cases ha : f.isAvailable with
      | false => simp [buildOrderItems, hf, ha] at h
      | true =>
        cases hr : buildOrderItems cat tl with
        | error e => simp [buildOrderItems, hf, ha, hr] at h
        | ok pr =>
          obtain ⟨its, sb⟩ := pr
          simp only [buildOrderItems, hf, ha, hr, if_true, Except.ok.injEq,
            Prod.mk.injEq] at h
          obtain ⟨h1, h2⟩ := h
          subst h1
          subst h2
          simp [ih hr]

theorem buildOrderItems_error_of_invalid {cat : Catalog} :
    ∀ {l : List (String × ℚ)} {i : String} {q : ℚ}, (i, q) ∈ l →
      (findFood cat i = none ∨
        ∃ f, findFood cat i = some f ∧ f.isAvailable = false) →
      ∃ e, buildOrderItems cat l = .error e := by
  intro l
  induction l with
  | nil => intro i q h _; simp at h
  | cons hd tl ih =>
    obtain ⟨j, p⟩ := hd
    intro i q hmem hbad
    rcases List.mem_cons.mp hmem with he | hm
    · obtain ⟨rfl, rfl⟩ : i = j ∧ q = p := by
        simpa [Prod.ext_iff] using he
      rcases hbad with hnone | ⟨f, hf, hav⟩
      · exact ⟨.notFound i, by simp [buildOrderItems, hnone]⟩
      · exact ⟨.unavailable f.name, by simp [buildOrderItems, hf, hav]⟩
    · cases hf : findFood cat j with
      | none => exact ⟨.notFound j, by simp [buildOrderItems, hf]⟩
      | some f =>
        cases ha : f.isAvailable with
        | false => exact ⟨.unavailable f.name, by simp [buildOrderItems, hf, ha]⟩
        | true =>
          obtain ⟨e, he⟩ := ih hm hbad
          exact ⟨e, by simp [buildOrderItems, hf, ha, he]⟩

theorem buildOrderItems_first_missing {cat : Catalog} :
    ∀ (pre : List (String × ℚ)) {i : String} (q : ℚ) (rest : List (String × ℚ)),
      (∀ p ∈ pre, ∃ f, findFood cat p.1 = some f ∧ f.isAvailable = true) →
      findFood cat i = none →
      buildOrderItems cat (pre ++ (i, q) :: rest) = .error (.notFound i) := by
  intro pre
  induction pre with
  | nil =>
    intro i q rest _ hmiss
    simp [buildOrderItems, hmiss]
  | cons hd tl ih =>
    obtain ⟨j, p⟩ := hd
    intro i q rest hval hmiss
    obtain ⟨f, hf, ha⟩ := hval (j, p) (by simp)
    have htl := ih q rest (fun r hr => hval r (by simp [hr])) hmiss
    simp [buildOrderItems, hf, ha, htl]

theorem buildOrderItems_first_unavailable {cat : Catalog} :
    ∀ (pre : List (String × ℚ)) {i : String} {g : FoodItem} (q : ℚ)
      (rest : List (String × ℚ)),
      (∀ p ∈ pre, ∃ f, findFood cat p.1 = some f ∧ f.isAvailable = true) →
      findFood cat i = some g → g.isAvailable = false →
      buildOrderItems cat (pre ++ (i, q) :: rest) = .error (.unavailable g.name) := by
  intro pre
  induction pre with
  | nil =>
    intro i g q rest _ hg hav
    simp [buildOrderItems, hg, hav]
  | cons hd tl ih =>
    obtain ⟨j, p⟩ := hd
    intro i g q rest hval hg hav
    obtain ⟨f, hf, ha⟩ := hval (j, p) (by simp)
    have htl := ih q rest (fun r hr => hval r (by simp [hr])) hg hav
    simp [buildOrderItems, hf, ha, htl]

/-! Inversion lemmas for the place-order handler. -/

theorem placeOrder_ok_inv {now : Nat} {saveOk : Bool} {s : State} {uid : String}
    {req : PlaceRequest} {o : Order} {s2 : State}
    (h : placeOrder now saveOk s uid req = (.ok o, s2)) :
    ∃ a u orders2,
      req.address = some a ∧
      findUser s.users uid = some u ∧
      saveOk = true ∧
      insertOrder s.orders o = some orders2 ∧
      buildOrderItems s.catalog (u.cartData.filter (fun p => decide (0 < p.2)))
        = .ok (o.items, o.amount) ∧
      o.userId = uid ∧
      o.orderNumber = genOrderNumber now s.orders.length ∧
      o.deliveryFee = 2 ∧
      o.totalAmount = o.amount + 2 ∧
      o.address = a ∧
      o.status = "Food Processing" ∧
      o.paymentStatus = "Pending" ∧
      o.createdAt = now ∧
      s2 = { s with orders := orders2, users := updateUserCart s.users uid [] } := by
  simp only [placeOrder] at h
  repeat' split at h
  all_goals injection h with h1 h2
  all_goals try exact PlaceResult.noConfusion h1
  rename_i h_addr xA a ha xU u hu hempty xB items subtotal hbuild hsave xI orders2 hins
  injection h1 with h1
  subst h1
  exact ⟨a, u, orders2, ha, hu, hsave, hins, hbuild, rfl, rfl, rfl, rfl, rfl,
    rfl, rfl, rfl, h2.symm⟩

theorem placeOrder_fail_state {now : Nat} {saveOk : Bool} {s : State}
    {uid : String} {req : PlaceRequest} {res : PlaceResult} {s2 : State}
    (h : placeOrder now saveOk s uid req = (res, s2))
    (hres : isOk res = false) : s2 = s := by
  simp only [placeOrder] at h
  repeat' split at h
  all_goals injection h with h1 h2
  all_goals first
    | exact h2.symm
    | (rw [← h1] at hres; simp [isOk] at hres)

theorem placeOrder_invalid_address {now : Nat} {saveOk : Bool} {s : State}
    {uid : String} {req : PlaceRequest}
    (h : addressIncomplete req.address = true) :
    placeOrder now saveOk s uid req
      = (.invalidAddress (missingFieldsOf req.address), s) := by
  simp [placeOrder, h]

theorem placeOrder_cart_empty {now : Nat} {saveOk : Bool} {s : State}
    {uid : String} {req : PlaceRequest} {a : Address} {u : UserRec}
    (ha : req.address = some a)
    (haddr : addressIncomplete req.address = false)
    (hu : findUser s.users uid = some u)
    (hfil : u.cartData.filter (fun p => decide (0 < p.2)) = []) :
    placeOrder now saveOk s uid req = (.cartEmpty, s) := by
  have haddr2 := haddr
  rw [ha] at haddr2
  simp [placeOrder, haddr, haddr2, ha, hu, hfil]

theorem placeOrder_build_error (now : Nat) (saveOk : Bool) {s : State}
    {uid : String} {req : PlaceRequest} {a : Address} {u : UserRec}
    {e : ItemErr}
    (ha : req.address = some a)
    (haddr : addressIncomplete req.address = false)
    (hu : findUser s.users uid = some u)
    (hne : u.cartData.filter (fun p => decide (0 < p.2)) ≠ [])
    (herr : buildOrderItems s.catalog
      (u.cartData.filter (fun p => decide (0 < p.2))) = .error e) :
    placeOrder now saveOk s uid req
      = ((match e with
          | .notFound i => .foodNotFound i
          | .unavailable n => .foodUnavailable n), s) := by
  have haddr2 := haddr
  rw [ha] at haddr2
  cases e with
  | notFound i =>
    simp [placeOrder, haddr, haddr2, ha, hu, List.isEmpty_iff, hne, herr]
  | unavailable n =>
    simp [placeOrder, haddr, haddr2, ha, hu, List.isEmpty_iff, hne, herr]

theorem placeOrder_invalidAddress_inv {now : Nat} {saveOk : Bool} {s : State}
    {uid : String} {req : PlaceRequest} {mf : MissingFields} {s2 : State}
    (h : placeOrder now saveOk s uid req = (.invalidAddress mf, s2)) :
    addressIncomplete req.address = true := by
  simp only [placeOrder] at h
  repeat' split at h
  all_goals injection h with h1 h2
  all_goals try exact PlaceResult.noConfusion h1
  all_goals first
    | assumption
    | (rename_i heq; rw [heq]; rfl)

theorem insertOrder_some_inv {orders : List Order} {o : Order}
    {orders2 : List Order} (h : insertOrder orders o = some orders2) :
    orders2 = orders ++ [o] ∧
      ∀ p ∈ orders, p.orderNumber ≠ o.orderNumber := by
  unfold insertOrder at h
  split at h
  · exact Option.noConfusion h
  · rename_i hc
    refine ⟨(Option.some.inj h).symm, ?_⟩
    intro p hp he
    exact hc (List.any_eq_true.mpr ⟨p, hp, by simp [he]⟩)

theorem hasKey_setKey_self (c : CartData) (i : String) (v : ℚ) :
    hasKey (setKey c i v) i = true := by
  have h := find?_setKey_self c i v
  have h2 : ((setKey c i v).find? (fun p => p.1 == i)).isSome = true := by
    rw [h]; rfl
  obtain ⟨x, hx, hpx⟩ := List.find?_isSome.mp h2
  exact List.any_eq_true.mpr ⟨x, hx, hpx⟩

theorem placeOrder_ignores_paymentStatus (now : Nat) (saveOk : Bool)
    (s : State) (uid : String) (req : PlaceRequest) (ps : Option String) :
    placeOrder now saveOk s uid { req with paymentStatus := ps }
      = placeOrder now saveOk s uid req := by
  cases req
  rfl

/-! Concrete fixtures used by the witnesses and counterexamples. -/

def wCat : Catalog :=
  [{ fid := "a", name := "Pizza", description := "", price := 1099/100,
     image := "", category := "Main", isAvailable := true },
   { fid := "b", name := "Cake", description := "", price := 850/100,
     image := "", category := "Dessert", isAvailable := true },
   { fid := "u", name := "Burger", description := "", price := 5,
     image := "", category := "Main", isAvailable := false }]

def wAddr : Address :=
  { firstName := "John", lastName := "Doe", email := "j@d.io",
    street := "1 Main St", city := "Anytown", state := "CA",
    zipcode := "12345", country := "USA", phone := "555-1234" }

def wReq : PlaceRequest :=
  { address := some wAddr, paymentId := none, paymentStatus := none }

def wBob : UserRec := { uid := "bob", cartData := [("a", 2), ("b", 1)] }

def wState : State := { users := [wBob], catalog := wCat, orders := [] }

/-- C1: a successful order placement appends exactly one new order,
whose order number is shared with no pre-existing order, and leaves the
placing user with an empty cart; a placement that does not succeed (in
particular one whose order insert fails) leaves the whole store,
including the cart, exactly as it was before the call. -/
theorem order_place_atomic (now : Nat) (saveOk : Bool) (s : State)
    (uid : String) (req : PlaceRequest) :
    (∀ o s2, placeOrder now saveOk s uid req = (.ok o, s2) →
      s2.orders = s.orders ++ [o] ∧
      (∀ p ∈ s.orders, p.orderNumber ≠ o.orderNumber) ∧
      ∃ u2, findUser s2.users uid = some u2 ∧ u2.cartData = []) ∧
    (∀ res s2, placeOrder now saveOk s uid req = (res, s2) →
      isOk res = false → s2 = s) := by
  constructor
  · intro o s2 h
    obtain ⟨a, u, orders2, ha, hu, hsave, hins, hbuild, h1, h2, h3, h4, h5,
      h6, h7, h8, hs2⟩ := placeOrder_ok_inv h
    obtain ⟨horders, huniq⟩ := insertOrder_some_inv hins
    refine ⟨by rw [hs2, horders], huniq, ?_⟩
    rw [hs2]
    exact ⟨{ u with cartData := [] }, findUser_updateUserCart_self hu [], rfl⟩
  · intro res s2 h hres
    exact placeOrder_fail_state h hres

/-- C1 witness: one placement from a concrete store succeeds with the
advertised effects, and the same placement with a failing order insert
mutates nothing. -/
theorem order_place_atomic_witness :
    ∃ o s2, placeOrder 5 true wState "bob" wReq = (.ok o, s2) ∧
      (s2.orders = wState.orders ++ [o] ∧
       (∀ p ∈ wState.orders, p.orderNumber ≠ o.orderNumber) ∧
       ∃ u2, findUser s2.users "bob" = some u2 ∧ u2.cartData = []) ∧
      (placeOrder 5 false wState "bob" wReq).2 = wState := by
  refine ⟨_, _, rfl, (order_place_atomic 5 true wState "bob" wReq).1 _ _ rfl, ?_⟩
  exact (order_place_atomic 5 false wState "bob" wReq).2 _ _ rfl (by decide)

/-- C3: in every successfully created order the stored subtotal is the
sum of price times quantity over the snapshot line items, the delivery
fee is the constant 2, and the stored total is subtotal plus fee. -/
theorem order_totals_consistent (now : Nat) (saveOk : Bool) (s : State)
    (uid : String) (req : PlaceRequest) (o : Order) (s2 : State)
    (h : placeOrder now saveOk s uid req = (.ok o, s2)) :
    o.amount = (o.items.map (fun it => it.price * it.quantity)).sum ∧
    o.deliveryFee = 2 ∧
    o.totalAmount = o.amount + o.deliveryFee := by
  obtain ⟨a, u, orders2, ha, hu, hsave, hins, hbuild, h1, h2, hfee, htot, h5,
    h6, h7, h8, hs2⟩ := placeOrder_ok_inv h
  refine ⟨buildOrderItems_subtotal hbuild, hfee, ?_⟩
  rw [htot, hfee]

/-- C3 witness: the cart holding two units of the 10.99 item and one
unit of the 8.50 item yields subtotal 30.48, fee 2, total 32.48. -/
theorem order_totals_consistent_witness :
    ∃ o s2, placeOrder 5 true wState "bob" wReq = (.ok o, s2) ∧
      o.amount = 3048/100 ∧ o.deliveryFee = 2 ∧ o.totalAmount = 3248/100 ∧
      o.totalAmount = o.amount + o.deliveryFee := by
  refine ⟨_, _, rfl, by norm_num, by norm_num, by norm_num,
    (order_totals_consistent 5 true wState "bob" wReq _ _ rfl).2.2⟩

def wReqPaid : PlaceRequest :=
  { address := some wAddr, paymentId := some "pay1",
    paymentStatus := some "Paid" }

/-- C5 counterexample: a request that supplies paymentStatus Paid still
produces an order persisted with paymentStatus Pending, so a supplied
payment status is not honoured. -/
theorem order_payment_status_cex :
    wReqPaid.paymentStatus = some "Paid" ∧
    ∃ o s2, placeOrder 5 true wState "bob" wReqPaid = (.ok o, s2) ∧
      o.paymentStatus = "Pending" ∧ o.paymentStatus ≠ "Paid" := by
  exact ⟨rfl, _, _, rfl, rfl, by decide⟩

/-- C5 (amended): every successfully persisted order has status Food
Processing and paymentStatus Pending unconditionally; the handler never
reads a caller-supplied paymentStatus, so changing that request field
changes nothing about the outcome. -/
theorem order_status_defaults (now : Nat) (saveOk : Bool) (s : State)
    (uid : String) (req : PlaceRequest) (o : Order) (s2 : State)
    (h : placeOrder now saveOk s uid req = (.ok o, s2)) :
    o.status = "Food Processing" ∧ o.paymentStatus = "Pending" ∧
    ∀ ps, placeOrder now saveOk s uid { req with paymentStatus := ps }
      = (.ok o, s2) := by
  obtain ⟨a, u, orders2, ha, hu, hsave, hins, hbuild, h1, h2, h3, h4, h5,
    hstat, hpay, h8, hs2⟩ := placeOrder_ok_inv h
  exact ⟨hstat, hpay,
    fun ps => (placeOrder_ignores_paymentStatus now saveOk s uid req ps).trans h⟩

/-- C5 witness: concrete successful placement with the defaults. -/
theorem order_status_defaults_witness :
    ∃ o s2, placeOrder 5 true wState "bob" wReq = (.ok o, s2) ∧
      o.status = "Food Processing" ∧ o.paymentStatus = "Pending" := by
  refine ⟨_, _, rfl, ?_, ?_⟩
  · exact (order_status_defaults 5 true wState "bob" wReq _ _ rfl).1
  · exact (order_status_defaults 5 true wState "bob" wReq _ _ rfl).2.1

/-- C6: when every entry of the cart has a non-positive quantity (in
particular when the cart is empty), placement fails with the cart-empty
error and nothing is written. -/
theorem order_place_empty_cart (now : Nat) (saveOk : Bool) (s : State)
    (uid : String) (req : PlaceRequest) (a : Address) (u : UserRec)
    (ha : req.address = some a)
    (haddr : addressIncomplete req.address = false)
    (hu : findUser s.users uid = some u)
    (hempty : ∀ p ∈ u.cartData, p.2 ≤ 0) :
    placeOrder now saveOk s uid req = (.cartEmpty, s) := by
  have hfil : u.cartData.filter (fun p => decide (0 < p.2)) = [] := by
    rw [List.filter_eq_nil_iff]
    intro p hp
    simpa using hempty p hp
  exact placeOrder_cart_empty ha haddr hu hfil

def wStateC6 : State :=
  { users := [{ uid := "dan", cartData := [("x", 0), ("y", -3)] }],
    catalog := wCat, orders := [] }

/-- C6 witness: a cart holding only zero and negative quantities counts
as empty. -/
theorem order_place_empty_cart_witness :
    placeOrder 9 true wStateC6 "dan" wReq = (.cartEmpty, wStateC6) :=
  order_place_empty_cart 9 true wStateC6 "dan" wReq wAddr
    { uid := "dan", cartData := [("x", 0), ("y", -3)] }
    rfl (by decide) rfl (by decide)

def wUserC2 : UserRec := { uid := "carol", cartData := [("u", 1), ("m", 1)] }

def wStateC2 : State := { users := [wUserC2], catalog := wCat, orders := [] }

/-- C2 counterexample: the cart of carol contains the entry m, whose id
resolves to no catalog item, yet placement does not fail naming m: the
loop hits the unavailable item u first and reports that instead. -/
theorem order_place_naming_cex :
    ("m", (1 : ℚ)) ∈ wUserC2.cartData ∧
    findFood wStateC2.catalog "m" = none ∧
    (placeOrder 5 true wStateC2 "carol" wReq).1 = .foodUnavailable "Burger" ∧
    (placeOrder 5 true wStateC2 "carol" wReq).1 ≠ .foodNotFound "m" := by
  exact ⟨by decide, rfl, rfl, by decide⟩

/-- C2 (amended): an invalid cart line aborts placement with nothing
persisted and the cart unchanged; the error names the first invalid
entry in cart order: its item id when that item is missing from the
catalog, or the item name when it exists but is unavailable.  Any
invalid entry anywhere in the cart prevents success and leaves the
store unchanged. -/
theorem order_place_invalid_item (now : Nat) (saveOk : Bool) (s : State)
    (uid : String) (req : PlaceRequest) (a : Address) (u : UserRec)
    (pre : List (String × ℚ)) (i : String) (q : ℚ)
    (rest : List (String × ℚ))
    (ha : req.address = some a)
    (haddr : addressIncomplete req.address = false)
    (hu : findUser s.users uid = some u)
    (hsplit : u.cartData.filter (fun p => decide (0 < p.2))
      = pre ++ (i, q) :: rest)
    (hpre : ∀ p ∈ pre, ∃ f, findFood s.catalog p.1 = some f ∧
      f.isAvailable = true) :
    (findFood s.catalog i = none →
      placeOrder now saveOk s uid req = (.foodNotFound i, s)) ∧
    (∀ g, findFood s.catalog i = some g → g.isAvailable = false →
      placeOrder now saveOk s uid req = (.foodUnavailable g.name, s)) ∧
    (∀ j p, (j, p) ∈ u.cartData.filter (fun r => decide (0 < r.2)) →
      (findFood s.catalog j = none ∨
        ∃ g, findFood s.catalog j = some g ∧ g.isAvailable = false) →
      isOk (placeOrder now saveOk s uid req).1 = false ∧
        (placeOrder now saveOk s uid req).2 = s) := by
  have hne : u.cartData.filter (fun p => decide (0 < p.2)) ≠ [] := by
    rw [hsplit]
    simp
  refine ⟨?_, ?_, ?_⟩
  · intro hmiss
    have herr := buildOrderItems_first_missing pre q rest hpre hmiss
    have h := placeOrder_build_error now saveOk ha haddr hu hne
      (by rw [hsplit]; exact herr)
    simpa using h
  · intro g hg hav
    have herr := buildOrderItems_first_unavailable pre q rest hpre hg hav
    have h := placeOrder_build_error now saveOk ha haddr hu hne
      (by rw [hsplit]; exact herr)
    simpa using h
  · intro j p hmem hbad
    obtain ⟨e, he⟩ := buildOrderItems_error_of_invalid hmem hbad
    have h := placeOrder_build_error now saveOk ha haddr hu hne he
    cases e with
    | notFound k => rw [h]; exact ⟨rfl, rfl⟩
    | unavailable n => rw [h]; exact ⟨rfl, rfl⟩

/-- C2 witness for the amended claim: the first invalid entry of the
carol cart is the unavailable Burger, so placement fails naming it and
mutates nothing. -/
theorem order_place_invalid_item_witness :
    placeOrder 5 true wStateC2 "carol" wReq
      = (.foodUnavailable "Burger", wStateC2) := by
  exact (order_place_invalid_item 5 true wStateC2 "carol" wReq wAddr wUserC2
    [] "u" 1 [("m", 1)] rfl (by decide) rfl (by decide)
    (by intro p hp; simp at hp)).2.1
    { fid := "u", name := "Burger", description := "", price := 5,
      image := "", category := "Main", isAvailable := false } rfl rfl

def wState2 : State :=
  { users := [{ uid := "bob", cartData := [("a", 2)] },
              { uid := "eve", cartData := [("b", 3)] }],
    catalog := wCat, orders := [] }

/-- C4: a generated order number is the dash-joined combination of the
millisecond timestamp and the zero-padded successor of the order count
taken before the insert; the sequence segment is padded to width at
least 4; the insert is guarded by the storage-level uniqueness check on
the order number; and two sequentially placed orders always carry
different order numbers, even when both are generated at the same
millisecond, because their sequence counts differ. -/
theorem order_numbers_distinct (now1 now2 : Nat) (sOk1 sOk2 : Bool)
    (s s1 s2 : State) (uid1 uid2 : String) (req1 req2 : PlaceRequest)
    (o1 o2 : Order)
    (h1 : placeOrder now1 sOk1 s uid1 req1 = (.ok o1, s1))
    (h2 : placeOrder now2 sOk2 s1 uid2 req2 = (.ok o2, s2)) :
    o1.orderNumber = genOrderNumber now1 s.orders.length ∧
    o2.orderNumber = genOrderNumber now2 (s.orders.length + 1) ∧
    (∀ p ∈ s1.orders, p.orderNumber ≠ o2.orderNumber) ∧
    (∀ k, 4 ≤ (padStart4 (natDigits (k + 1))).length) ∧
    o1.orderNumber ≠ o2.orderNumber := by
  obtain ⟨a1, u1, orders2a, ha1, hu1, hsave1, hins1, hbuild1, g1, hnum1, g2,
    g3, g4, g5, g6, g7, hs1⟩ := placeOrder_ok_inv h1
  obtain ⟨a2, u2, orders2b, ha2, hu2, hsave2, hins2, hbuild2, k1, hnum2, k2,
    k3, k4, k5, k6, k7, hs2⟩ := placeOrder_ok_inv h2
  obtain ⟨horders1, huniq1⟩ := insertOrder_some_inv hins1
  obtain ⟨horders2, huniq2⟩ := insertOrder_some_inv hins2
  have hlen : s1.orders.length = s.orders.length + 1 := by
    rw [hs1, horders1]
    simp
  rw [hlen] at hnum2
  refine ⟨hnum1, hnum2, huniq2, ?_, ?_⟩
  · intro k
    rw [padStart4_length]
    omega
  · intro he
    have := genOrderNumber_inj (hnum1 ▸ hnum2 ▸ he)
    omega

/-- C4 witness: two placements at the same millisecond, the second from
the state left by the first, receive distinct order numbers. -/
theorem order_numbers_distinct_witness :
    ∃ o1 s1 o2 s2, placeOrder 7 true wState2 "bob" wReq = (.ok o1, s1) ∧
      placeOrder 7 true s1 "eve" wReq = (.ok o2, s2) ∧
      o1.orderNumber ≠ o2.orderNumber := by
  refine ⟨_, _, _, _, rfl, rfl, ?_⟩
  exact (order_numbers_distinct 7 7 true true wState2 _ _ "bob" "eve"
    wReq wReq _ _ rfl rfl).2.2.2.2

/-- C7: a request whose address misses any of the nine required fields
fails before any write, reporting one boolean per field, and the
reported booleans are correct per field; when all nine fields are
present the validation passes and the handler can never answer with the
address failure. -/
theorem order_place_address_validation (now : Nat) (saveOk : Bool)
    (s : State) (uid : String) (req : PlaceRequest) :
    (addressIncomplete req.address = true →
      placeOrder now saveOk s uid req
        = (.invalidAddress (missingFieldsOf req.address), s)) ∧
    (∀ a, req.address = some a →
      (((missingFieldsOf req.address).firstName = true ↔ a.firstName = "") ∧
       ((missingFieldsOf req.address).lastName = true ↔ a.lastName = "") ∧
       ((missingFieldsOf req.address).email = true ↔ a.email = "") ∧
       ((missingFieldsOf req.address).street = true ↔ a.street = "") ∧
       ((missingFieldsOf req.address).city = true ↔ a.city = "") ∧
       ((missingFieldsOf req.address).state = true ↔ a.state = "") ∧
       ((missingFieldsOf req.address).zipcode = true ↔ a.zipcode = "") ∧
       ((missingFieldsOf req.address).country = true ↔ a.country = "") ∧
       ((missingFieldsOf req.address).phone = true ↔ a.phone = ""))) ∧
    (req.address = none →
      missingFieldsOf req.address
        = ⟨true, true, true, true, true, true, true, true, true⟩) ∧
    (∀ a, req.address = some a →
      (addressIncomplete req.address = false ↔
        (a.firstName ≠ "" ∧ a.lastName ≠ "" ∧ a.email ≠ "" ∧ a.street ≠ "" ∧
         a.city ≠ "" ∧ a.state ≠ "" ∧ a.zipcode ≠ "" ∧ a.country ≠ "" ∧
         a.phone ≠ ""))) ∧
    (addressIncomplete req.address = false →
      ∀ mf, (placeOrder now saveOk s uid req).1 ≠ .invalidAddress mf) := by
  refine ⟨fun h => placeOrder_invalid_address h, ?_, ?_, ?_, ?_⟩
  · intro a ha
    rw [ha]
    simp [missingFieldsOf, fieldMissing]
  · intro ha
    rw [ha]
    rfl
  · intro a ha
    rw [ha]
    simp [addressIncomplete, fieldMissing, and_assoc]
  · intro haddr mf hc
    have heta : placeOrder now saveOk s uid req
        = ((placeOrder now saveOk s uid req).1,
           (placeOrder now saveOk s uid req).2) := rfl
    rw [hc] at heta
    exact absurd (placeOrder_invalidAddress_inv heta) (by simp [haddr])

def wAddrBad : Address :=
  { firstName := "", lastName := "Doe", email := "", street := "1 Main St",
    city := "", state := "CA", zipcode := "", country := "USA",
    phone := "555" }

def wReqBad : PlaceRequest :=
  { address := some wAddrBad, paymentId := none, paymentStatus := none }

/-- C7 witness: the four-fields-missing address fails naming exactly
those fields and writes nothing, and the complete address passes. -/
theorem order_place_address_validation_witness :
    placeOrder 0 true wState "bob" wReqBad
      = (.invalidAddress
          ⟨true, false, true, false, true, false, true, false, false⟩,
         wState) ∧
    ((missingFieldsOf wReqBad.address).firstName = true ↔
      wAddrBad.firstName = "") ∧
    (∀ mf, (placeOrder 0 true wState "bob" wReq).1 ≠ .invalidAddress mf) := by
  refine ⟨?_, ?_, ?_⟩
  · have h := (order_place_address_validation 0 true wState "bob" wReqBad).1
      (by decide)
    rw [h]
    rfl
  · exact ((order_place_address_validation 0 true wState "bob" wReqBad).2.1
      wAddrBad rfl).1
  · exact (order_place_address_validation 0 true wState "bob" wReq).2.2.2.2
      (by decide)

/-- C8: starting from the empty cart, after any sequence of add and
remove calls with positive quantities the stored quantity of an item
equals the signed-delta sum floored at removal-to-deletion, the entry
is present exactly when that sum is positive, every stored entry stays
positive, and the remove handler reports the resulting quantity, 0 when
the entry was removed. -/
theorem cart_signed_deltas (ops : List CartOp) (i : String)
    (hq : ∀ op ∈ ops, 0 < op.qty) :
    cartGetD (applyOps [] ops) i = specSignedSum i ops ∧
    (hasKey (applyOps [] ops) i = true ↔ 0 < specSignedSum i ops) ∧
    allPos (applyOps [] ops) ∧
    (∀ us uid u itemId q, findUser us uid = some u → 0 < q →
      (cartRemoveHandler us uid itemId q).1
        = .ok itemId (if cartGetD u.cartData itemId - q ≤ 0 then 0
            else cartGetD u.cartData itemId - q)) := by
  have h0 : allPos ([] : CartData) := fun p hp => absurd hp (List.not_mem_nil p)
  have hmain := applyOps_spec i ops [] h0 hq
  have hsum : cartGetD (applyOps [] ops) i = specSignedSum i ops := hmain.1
  refine ⟨hsum, ?_, hmain.2, ?_⟩
  · rw [hasKey_iff_pos hmain.2 i, hsum]
  · intro us uid u itemId q hu hq2
    simp [cartRemoveHandler, hu, cartGetD_cartRemove_self hq2 u.cartData itemId]

def wOps : List CartOp :=
  [.add "x" 1, .remove "x" 5, .add "x" 3, .add "y" 2, .remove "z" 1]

/-- C8 witness: the sequence add 1, remove 5 (deletes), add 3 leaves
quantity 3 for the item, and removing 5 from a stored 3 deletes the
entry and reports 0. -/
theorem cart_signed_deltas_witness :
    specSignedSum "x" wOps = 3 ∧
    cartGetD (applyOps [] wOps) "x" = 3 ∧
    hasKey (applyOps [] wOps) "x" = true ∧
    (cartRemoveHandler [{ uid := "bob", cartData := [("x", 3)] }]
      "bob" "x" 5).1 = .ok "x" 0 := by
  have hspec : specSignedSum "x" wOps = 3 := by
    norm_num [wOps, specSignedSum, specStep]
    simp
  have h := cart_signed_deltas wOps "x" (by decide)
  refine ⟨hspec, h.1.trans hspec, h.2.1.mpr (by rw [hspec]; norm_num), ?_⟩
  have h4 := h.2.2.2 [{ uid := "bob", cartData := [("x", 3)] }] "bob"
    { uid := "bob", cartData := [("x", 3)] } "x" 5 rfl (by decide)
  rw [h4]
  norm_num [cartGetD]

/-- C9: the listing returns only orders of the requested user, sorted
by creation time descending; the metadata is totalPages equal to the
ceiling of totalOrders over limit, hasNextPage compares the page to
totalPages, hasPrevPage compares it to 1; and a user with no orders
receives the empty sequence with totalOrders 0, totalPages 0 and
hasNextPage false. -/
theorem user_orders_pagination (s : State) (uid : String) (page limit : Nat)
    (hp : 1 ≤ page) (hl : 0 < limit) :
    List.Sorted byCreatedDesc (userOrdersHandler s uid page limit).1 ∧
    (∀ o ∈ (userOrdersHandler s uid page limit).1,
      o.userId = uid ∧ o ∈ s.orders) ∧
    (userOrdersHandler s uid page limit).2.currentPage = page ∧
    (userOrdersHandler s uid page limit).2.totalOrders
      = (s.orders.filter (fun o => o.userId == uid)).length ∧
    (userOrdersHandler s uid page limit).2.totalPages
      = (userOrdersHandler s uid page limit).2.totalOrders ⌈/⌉ limit ∧
    (userOrdersHandler s uid page limit).2.hasNextPage
      = decide (page < (userOrdersHandler s uid page limit).2.totalPages) ∧
    (userOrdersHandler s uid page limit).2.hasPrevPage = decide (1 < page) ∧
    ((s.orders.filter (fun o => o.userId == uid)).length = 0 →
      (userOrdersHandler s uid page limit).1 = [] ∧
      (userOrdersHandler s uid page limit).2
        = { currentPage := page, totalPages := 0, totalOrders := 0,
            hasNextPage := false, hasPrevPage := decide (1 < page) }) := by
  have hs := List.sorted_insertionSort byCreatedDesc
    (s.orders.filter (fun o => o.userId == uid))
  have hsub : (userOrdersHandler s uid page limit).1.Sublist
      (List.insertionSort byCreatedDesc
        (s.orders.filter (fun o => o.userId == uid))) :=
    (List.take_sublist _ _).trans (List.drop_sublist _ _)
  refine ⟨List.Pairwise.sublist hsub hs, ?_, rfl, rfl, ?_, rfl, rfl, ?_⟩
  · intro o ho
    have h1 : o ∈ List.insertionSort byCreatedDesc
        (s.orders.filter (fun p => p.userId == uid)) := hsub.subset ho
    have h2 : o ∈ s.orders.filter (fun p => p.userId == uid) :=
      (List.perm_insertionSort byCreatedDesc _).mem_iff.mp h1
    obtain ⟨hmem, hpred⟩ := List.mem_filter.mp h2
    exact ⟨by simpa using hpred, hmem⟩
  · show jsCeilDiv _ limit = _
    rw [Nat.ceilDiv_eq_add_pred_div]
    rfl
  · intro h0
    have hnil : s.orders.filter (fun o => o.userId == uid) = [] :=
      List.length_eq_zero.mp h0
    have hz : jsCeilDiv 0 limit = 0 := by
      unfold jsCeilDiv
      exact Nat.div_eq_of_lt (by omega)
    constructor
    · show ((List.insertionSort byCreatedDesc _).drop _).take _ = []
      rw [hnil]
      simp
    · show (⟨page, jsCeilDiv _ limit, _, _, _⟩ : Pagination) = _
      rw [hnil]
      simp [hz]

/-- C9 witness: a user with no orders gets the empty page and the zero
metadata. -/
theorem user_orders_pagination_witness :
    (userOrdersHandler wState "bob" 1 10).1 = [] ∧
    (userOrdersHandler wState "bob" 1 10).2
      = { currentPage := 1, totalPages := 0, totalOrders := 0,
          hasNextPage := false, hasPrevPage := false } := by
  have h := (user_orders_pagination wState "bob" 1 10 (by decide)
    (by decide)).2.2.2.2.2.2.2 (by decide)
  exact ⟨h.1, h.2.trans rfl⟩

theorem isOk_iff (r : PlaceResult) : isOk r = true ↔ ∃ o, r = .ok o := by
  cases r <;> simp [isOk]

/-- C10: the cart add handler never consults the catalog: it answers
NotFound exactly when the user lookup fails, and for any item id,
resolvable or not, it succeeds and stores the incremented entry; an
unresolvable entry added this way makes any later order placement from
that state fail without writing anything. -/
theorem cart_add_skips_catalog (s : State) (uid itemId : String) (q : ℚ) :
    ((cartAddHandler s.users uid itemId q).1 = .notFound ↔
      findUser s.users uid = none) ∧
    (∀ u, findUser s.users uid = some u →
      (cartAddHandler s.users uid itemId q).1
        = .ok itemId (cartGetD u.cartData itemId + q) ∧
      hasKey (cartAdd u.cartData itemId q) itemId = true ∧
      (0 < q → allPos u.cartData → findFood s.catalog itemId = none →
        ∀ now saveOk req,
          isOk (placeOrder now saveOk
            { s with users := (cartAddHandler s.users uid itemId q).2 }
            uid req).1 = false ∧
          (placeOrder now saveOk
            { s with users := (cartAddHandler s.users uid itemId q).2 }
            uid req).2
            = { s with users := (cartAddHandler s.users uid itemId q).2 })) := by
  constructor
  · cases hu : findUser s.users uid with
    | none => simp [cartAddHandler, hu]
    | some u => simp [cartAddHandler, hu]
  · intro u hu
    have hh : cartAddHandler s.users uid itemId q
        = (.ok itemId (cartGetD (cartAdd u.cartData itemId q) itemId),
           updateUserCart s.users uid (cartAdd u.cartData itemId q)) := by
      simp [cartAddHandler, hu]
    refine ⟨?_, hasKey_setKey_self u.cartData itemId _, ?_⟩
    · rw [hh]
      simp [cartGetD_cartAdd_self]
    · intro hq hap hmiss now saveOk req
      have husers : ({ s with users := (cartAddHandler s.users uid itemId q).2 }
            : State).users
          = updateUserCart s.users uid (cartAdd u.cartData itemId q) := by
        rw [hh]
      have hu2 : findUser ({ s with
            users := (cartAddHandler s.users uid itemId q).2 } : State).users uid
          = some { u with cartData := cartAdd u.cartData itemId q } := by
        rw [husers]
        exact findUser_updateUserCart_self hu _
      have hval : 0 < cartGetD u.cartData itemId + q := by
        have := cartGetD_nonneg hap itemId
        linarith
      have hmem : (itemId, cartGetD u.cartData itemId + q)
          ∈ cartAdd u.cartData itemId q :=
        List.mem_of_find?_eq_some (find?_setKey_self u.cartData itemId _)
      have hmemf : (itemId, cartGetD u.cartData itemId + q)
          ∈ (cartAdd u.cartData itemId q).filter (fun p => decide (0 < p.2)) :=
        List.mem_filter.mpr ⟨hmem, by simpa using hval⟩
      obtain ⟨e, he⟩ := buildOrderItems_error_of_invalid hmemf (Or.inl hmiss)
      have hnotok : isOk (placeOrder now saveOk
          { s with users := (cartAddHandler s.users uid itemId q).2 }
          uid req).1 = false := by
        by_contra hcontr
        have hok : isOk (placeOrder now saveOk
            { s with users := (cartAddHandler s.users uid itemId q).2 }
            uid req).1 = true := by
          simpa using hcontr
        obtain ⟨o, ho⟩ := (isOk_iff _).mp hok
        have heta : placeOrder now saveOk
            { s with users := (cartAddHandler s.users uid itemId q).2 } uid req
            = (.ok o, (placeOrder now saveOk
                { s with users := (cartAddHandler s.users uid itemId q).2 }
                uid req).2) := by
          rw [← ho]
        obtain ⟨a2, u2, orders2, ha2, hu2b, hsave, hins, hbuild, r1, r2, r3,
          r4, r5, r6, r7, r8, r9⟩ := placeOrder_ok_inv heta
        have hu2eq : u2 = { u with cartData := cartAdd u.cartData itemId q } :=
          Option.some.inj (hu2b.symm.trans hu2)
        subst hu2eq
        have hbuild2 : buildOrderItems s.catalog
            ((cartAdd u.cartData itemId q).filter (fun p => decide (0 < p.2)))
            = .ok (o.items, o.amount) := hbuild
        exact Except.noConfusion (hbuild2.symm.trans he)
      refine ⟨hnotok, ?_⟩
      exact placeOrder_fail_state rfl hnotok

/-- C10 witness: adding an item id absent from the catalog succeeds and
is only rejected at order placement. -/
theorem cart_add_skips_catalog_witness :
    (cartAddHandler wState.users "bob" "zzz" 2).1 = .ok "zzz" 2 ∧
    findFood wState.catalog "zzz" = none ∧
    isOk (placeOrder 3 true
      { wState with users := (cartAddHandler wState.users "bob" "zzz" 2).2 }
      "bob" wReq).1 = false := by
  have h := (cart_add_skips_catalog wState "bob" "zzz" 2).2 wBob rfl
  refine ⟨?_, rfl, ?_⟩
  · have hg : cartGetD wBob.cartData "zzz" = 0 := rfl
    rw [h.1, hg]
    norm_num
  · exact (h.2.2 (by decide) (by decide) rfl 3 true wReq).1

end Cafeteria
